import Mathlib

/-!
Verification of the layout data-composition library.

The development shallowly embeds the repository's runtime logic:

* `JVal` — a JSON-like value type standing in for JavaScript values.
* `mapGet` / `mapSet` / `mapDelete` — the `Map` operations used by the
  LRU cache (`src/lib/lru.ts`), on association lists that keep insertion
  order, exactly as a JavaScript `Map` does.
* `GSSPResult` — the `GetServerSidePropsResult` tagged union:
  `{ props }`, `{ redirect }`, or `{ notFound }`.
* `run` — the request orchestrator produced by `generateGetServerSideProps`
  in `src/lib/index.ts`; `runBackend` — the variant produced by
  `implementLayoutBackend` (adds the `transform` field).
* `defaultExport` — the render-side adapter from `createPage`
  (`src/lib/index.ts`) and `implementLayoutFrontend` (`src/lib/client.ts`).
* `LRUState` with `lruGet` / `lruSet` / `lruDelete` / `fireTimer` — the
  `LRU` class, with timers made explicit as a set of scheduled removals.

Asynchrony is resolved per request: a fetch function's settled outcome is
an `Except JVal` value (`Except.error` models a throw/rejection), and the
orchestrator additionally returns the list of observable `Event`s so that
ordering and "never invoked" properties can be stated.
-/

namespace Layout

/-- JSON-like values standing in for JavaScript runtime values.  Objects are
association lists in property-insertion order. -/
inductive JVal where
  | null : JVal
  | bool : Bool → JVal
  | num : Int → JVal
  | str : String → JVal
  | arr : List JVal → JVal
  | obj : List (String × JVal) → JVal

/-- Lookup of a key in an association list (first occurrence), i.e.
`Map.prototype.get` / property access. -/
def mapGet {K V : Type} [DecidableEq K] : List (K × V) → K → Option V
  | [], _ => none
  | (k', v) :: rest, k => if k' = k then some v else mapGet rest k

/-- `Map.prototype.has`. -/
def mapContains {K V : Type} [DecidableEq K] (m : List (K × V)) (k : K) : Bool :=
  (mapGet m k).isSome

/-- `Map.prototype.delete`: remove the entries with the given key. -/
def mapDelete {K V : Type} [DecidableEq K] (m : List (K × V)) (k : K) : List (K × V) :=
  m.filter (fun kv => kv.1 ≠ k)

/-- `Map.prototype.set`: replace in place when the key is present (keeping
its position, as a JavaScript `Map` does), otherwise append at the end. -/
def mapSet {K V : Type} [DecidableEq K] (m : List (K × V)) (k : K) (v : V) : List (K × V) :=
  if mapContains m k then m.map (fun kv => if kv.1 = k then (k, v) else kv)
  else m ++ [(k, v)]

/-- Property read on a `JVal`: `x[key]`, `none` when absent or not an object. -/
def jget : JVal → String → Option JVal
  | JVal.obj fields, key => mapGet fields key
  | _, _ => none

/-- `x[key] ?? {}` — property read defaulting to the empty object. -/
def jgetD (v : JVal) (key : String) : JVal :=
  (jget v key).getD (JVal.obj [])

/-- Field list of the spread `{ ...a, ...b }`: keys of `a` in order with
values overridden by `b` where present, then the keys of `b` not in `a`. -/
def spreadFields (a b : List (String × JVal)) : List (String × JVal) :=
  a.map (fun kv =>
    match mapGet b kv.1 with
    | some v => (kv.1, v)
    | none => kv)
  ++ b.filter (fun kv => !(mapContains a kv.1))

/-- Fields of an object value (non-objects contribute no enumerable fields). -/
def toFields : JVal → List (String × JVal)
  | JVal.obj fields => fields
  | _ => []

/-- The object spread `{ ...a, ...b }`. -/
def jspread (a b : JVal) : JVal :=
  JVal.obj (spreadFields (toFields a) (toFields b))

/-- `GetServerSidePropsResult`: exactly one of `{ props }`,
`{ redirect: { destination, permanent } }`, `{ notFound: true }`.
The orchestrator distinguishes the cases by presence of the `props` key. -/
inductive GSSPResult where
  | props : JVal → GSSPResult
  | redirect : (destination : String) → (permanent : Bool) → GSSPResult
  | notFound : GSSPResult

/-- `"props" in result` — `true` exactly on the continue case. -/
def GSSPResult.hasProps : GSSPResult → Bool
  | GSSPResult.props _ => true
  | _ => false

/-- `layoutGetServerSideProps.locals ?? {}` (src/lib/index.ts line 97). -/
def declaredLocals (layoutProps : JVal) : JVal :=
  jgetD layoutProps "locals"

/-- `layoutGetServerSideProps.layout ?? {}` (src/lib/index.ts line 120). -/
def declaredLayout (layoutProps : JVal) : JVal :=
  jgetD layoutProps "layout"

/-- The merged object `{ serverSideProps, internalProps }` built at
src/lib/index.ts line 120 — no other field. -/
def composedProps (serverSideProps internalProps : JVal) : JVal :=
  JVal.obj [("serverSideProps", serverSideProps), ("internalProps", internalProps)]

/-- The merged object `{ serverSideProps, internalProps, transform }` built
at src/unnamed/part_002 line 158. -/
def composedProps3 (serverSideProps internalProps transform : JVal) : JVal :=
  JVal.obj [("serverSideProps", serverSideProps), ("internalProps", internalProps),
    ("transform", transform)]

/-- The caching options of a page registration, together with the settled
behaviour of the per-page cache on this request.  `hash` is the
caller-supplied key function (the request context is fixed, so only the
`locals` argument varies); `getOutcome key` is how `localCache.get key`
settles; `setOutcome key` is how the fire-and-forget `localCache.set`
promise settles — the orchestrator discards that promise
(src/lib/index.ts line 107: `localCache.set(...).catch()` is not awaited). -/
structure CachingOptions where
  hash : JVal → Except JVal String
  getOutcome : String → Except JVal (Option GSSPResult)
  setOutcome : String → Except JVal Unit
  timeoutInMs : Nat

/-- One request through the orchestrator returned by
`generateGetServerSideProps`: the settled outcomes of every collaborator.
`layoutFetch = none` models the absence of a layout `getServerSideProps`
(the code then uses `{ props: {} }`). -/
structure OrchestratorInput where
  layoutFetch : Option (Except JVal GSSPResult)
  passthrough : JVal → Except JVal GSSPResult
  caching : Option CachingOptions
  serializer : Option (JVal → Except JVal JVal)
  exceptionHandler : Option (JVal → Except JVal GSSPResult)

/-- Observable events of one orchestrated request, in order. -/
inductive Event where
  | layoutFetch : Event
  | cacheGet : String → Event
  | pageFetch : (locals : JVal) → Event
  | cacheSet : String → GSSPResult → (timeoutInMs : Nat) → Event

/-- The layout stage outcome: the layout `getServerSideProps` result when
one was supplied, otherwise the implicit `{ props: {} }`
(src/lib/index.ts lines 87-90). -/
def layoutOutcome (input : OrchestratorInput) : Except JVal GSSPResult :=
  match input.layoutFetch with
  | some r => r
  | none => Except.ok (GSSPResult.props (JVal.obj []))

/-- The page-fetch stage (src/lib/index.ts lines 98-114): consult the cache
when caching options are present (`get` rejections become misses, the `set`
promise is discarded), otherwise call the passthrough directly. -/
def pageFetchPhase (caching : Option CachingOptions)
    (passthrough : JVal → Except JVal GSSPResult) (locals : JVal) :
    Except JVal GSSPResult × List Event :=
  match caching with
  | none =>
    match passthrough locals with
    | Except.error e => (Except.error e, [Event.pageFetch locals])
    | Except.ok r => (Except.ok r, [Event.pageFetch locals])
  | some c =>
    match c.hash locals with
    | Except.error e => (Except.error e, [])
    | Except.ok key =>
      match (match c.getOutcome key with
             | Except.error _ => none
             | Except.ok v => v) with
      | some cacheHit => (Except.ok cacheHit, [Event.cacheGet key])
      | none =>
        match passthrough locals with
        | Except.error e => (Except.error e, [Event.cacheGet key, Event.pageFetch locals])
        | Except.ok r =>
          (Except.ok r,
            [Event.cacheGet key, Event.pageFetch locals, Event.cacheSet key r c.timeoutInMs])

/-- `{ props: serializer ? serializer.serialize(props) : props }`
(src/lib/index.ts lines 121-126); a throwing serializer propagates into
the surrounding try. -/
def serializeStep (serializer : Option (JVal → Except JVal JVal)) (props : JVal) :
    Except JVal GSSPResult :=
  match serializer with
  | some s => (s props).map GSSPResult.props
  | none => Except.ok (GSSPResult.props props)

/-- The body of the `try` block of the function returned by
`generateGetServerSideProps` (src/lib/index.ts lines 84-126), together
with the events it performs. -/
def tryBody (input : OrchestratorInput) : Except JVal GSSPResult × List Event :=
  let layoutTrace : List Event :=
    match input.layoutFetch with
    | some _ => [Event.layoutFetch]
    | none => []
  match layoutOutcome input with
  | Except.error e => (Except.error e, layoutTrace)
  | Except.ok (GSSPResult.redirect d p) => (Except.ok (GSSPResult.redirect d p), layoutTrace)
  | Except.ok GSSPResult.notFound => (Except.ok GSSPResult.notFound, layoutTrace)
  | Except.ok (GSSPResult.props layoutProps) =>
    match pageFetchPhase input.caching input.passthrough (declaredLocals layoutProps) with
    | (Except.error e, tr) => (Except.error e, layoutTrace ++ tr)
    | (Except.ok (GSSPResult.redirect d p), tr) =>
      (Except.ok (GSSPResult.redirect d p), layoutTrace ++ tr)
    | (Except.ok GSSPResult.notFound, tr) => (Except.ok GSSPResult.notFound, layoutTrace ++ tr)
    | (Except.ok (GSSPResult.props passthroughProps), tr) =>
      (serializeStep input.serializer
        (composedProps passthroughProps (declaredLayout layoutProps)),
       layoutTrace ++ tr)

/-- The `catch` clause (src/lib/index.ts lines 127-130): hand the error to
the exception handler when one was supplied, otherwise rethrow. -/
def applyHandler (handler : Option (JVal → Except JVal GSSPResult)) (e : JVal) :
    Except JVal GSSPResult :=
  match handler with
  | some h => h e
  | none => Except.error e

/-- One request through the function returned by
`generateGetServerSideProps` (src/lib/index.ts lines 83-131): the try body
wrapped in the single catch.  `Except.error` in the first component models
the exception reaching the caller. -/
def run (input : OrchestratorInput) : Except JVal GSSPResult × List Event :=
  match tryBody input with
  | (Except.error e, tr) => (applyHandler input.exceptionHandler e, tr)
  | (Except.ok v, tr) => (Except.ok v, tr)

/-- One request through `implementLayoutBackend`'s orchestrator
(src/unnamed/part_002): same collaborators plus the optional
`executeTransform` capability, and a plain `serialize` function. -/
structure BackendInput where
  layoutFetch : Option (Except JVal GSSPResult)
  passthrough : JVal → Except JVal GSSPResult
  caching : Option CachingOptions
  serialize : Option (JVal → Except JVal JVal)
  executeTransform : Option (JVal → Except JVal JVal)
  exceptionHandler : Option (JVal → Except JVal GSSPResult)

/-- Layout stage outcome in the backend variant (src/unnamed/part_002
lines 125-128). -/
def layoutOutcomeB (input : BackendInput) : Except JVal GSSPResult :=
  match input.layoutFetch with
  | some r => r
  | none => Except.ok (GSSPResult.props (JVal.obj []))

/-- The try body of `implementLayoutBackend`'s `generateGetServerSideProps`
(src/unnamed/part_002 lines 122-166): identical to `tryBody` up to the
merge, which builds `{ serverSideProps, internalProps, transform: {} }`,
then overwrites `transform` with the awaited `executeTransform` result when
that capability is present, then serializes. -/
def tryBodyBackend (input : BackendInput) : Except JVal GSSPResult × List Event :=
  let layoutTrace : List Event :=
    match input.layoutFetch with
    | some _ => [Event.layoutFetch]
    | none => []
  match layoutOutcomeB input with
  | Except.error e => (Except.error e, layoutTrace)
  | Except.ok (GSSPResult.redirect d p) => (Except.ok (GSSPResult.redirect d p), layoutTrace)
  | Except.ok GSSPResult.notFound => (Except.ok GSSPResult.notFound, layoutTrace)
  | Except.ok (GSSPResult.props layoutProps) =>
    match pageFetchPhase input.caching input.passthrough (declaredLocals layoutProps) with
    | (Except.error e, tr) => (Except.error e, layoutTrace ++ tr)
    | (Except.ok (GSSPResult.redirect d p), tr) =>
      (Except.ok (GSSPResult.redirect d p), layoutTrace ++ tr)
    | (Except.ok GSSPResult.notFound, tr) => (Except.ok GSSPResult.notFound, layoutTrace ++ tr)
    | (Except.ok (GSSPResult.props passthroughProps), tr) =>
      let props0 := composedProps3 passthroughProps (declaredLayout layoutProps) (JVal.obj [])
      match input.executeTransform with
      | none => (serializeStep input.serialize props0, layoutTrace ++ tr)
      | some f =>
        match f props0 with
        | Except.error e => (Except.error e, layoutTrace ++ tr)
        | Except.ok transform =>
          (serializeStep input.serialize
            (JVal.obj (mapSet (toFields props0) "transform" transform)),
           layoutTrace ++ tr)

/-- One request through `implementLayoutBackend`'s orchestrator with its
single catch (src/unnamed/part_002 lines 167-170). -/
def runBackend (input : BackendInput) : Except JVal GSSPResult × List Event :=
  match tryBodyBackend input with
  | (Except.error e, tr) => (applyHandler input.exceptionHandler e, tr)
  | (Except.ok v, tr) => (Except.ok v, tr)

/-- The render-side configuration: optional deserializer, optional
`generateExportedInternalProps` projection, the page's render function, and
the layout component (receiving `{ internalProps, layoutProps }`). -/
structure RenderInput where
  deserialize : Option (JVal → JVal)
  generateExportedInternalProps : Option (JVal → JVal)
  page : JVal → JVal
  layoutComponent : JVal → JVal

/-!
The `LRU` class of `src/lib/lru.ts` (also src/unnamed/part_002 lines 14-58).
Timers are modelled explicitly: `setTimeout` allocates a fresh timer id and
records it as scheduled; `clearTimeout` unschedules it; `fireTimer` is the
callback of a still-scheduled timer running.
-/

/-- The state of one `LRU` instance: the `cache` map, the `timeoutMap`
(key → pending timer id), the scheduled-but-not-yet-fired timers
`(id, key, timeoutInMs)`, and the next fresh timer id. -/
structure LRUState (K V : Type) where
  cache : List (K × V)
  timeoutMap : List (K × Nat)
  scheduled : List (Nat × K × Nat)
  nextId : Nat

/-- A freshly constructed `LRU`: both maps empty, no timer pending. -/
def emptyLRU (K V : Type) : LRUState K V :=
  { cache := [], timeoutMap := [], scheduled := [], nextId := 0 }

/-- `first()`: the first key in the cache's insertion order
(src/lib/lru.ts: `this.cache.keys().next().value`), `none` when empty. -/
def lruFirst {K V : Type} (s : LRUState K V) : Option K :=
  s.cache.head?.map Prod.fst

/-- `delete(key)`: clear the pending timer recorded for the key, then
remove the key from both maps. -/
def lruDelete {K V : Type} [DecidableEq K] (s : LRUState K V) (k : K) : LRUState K V :=
  { cache := mapDelete s.cache k,
    timeoutMap := mapDelete s.timeoutMap k,
    scheduled :=
      match mapGet s.timeoutMap k with
      | some tid => s.scheduled.filter (fun t => t.1 ≠ tid)
      | none => s.scheduled,
    nextId := s.nextId }

/-- `get(key)`: on a hit, refresh recency by deleting and re-inserting the
entry in the `cache` map (the timer is untouched). -/
def lruGet {K V : Type} [DecidableEq K] (s : LRUState K V) (k : K) :
    Option V × LRUState K V :=
  match mapGet s.cache k with
  | none => (none, s)
  | some v => (some v, { s with cache := mapSet (mapDelete s.cache k) k v })

/-- The prologue of `set(key, ...)`: delete the key when present
(resetting it), else evict `first()` when the cache already holds `max`
entries (`this.delete(this.first())` is a no-op on an empty cache, whose
`first()` is `undefined`). -/
def lruEvictTarget {K V : Type} [DecidableEq K] (max : Nat) (s : LRUState K V)
    (k : K) : LRUState K V :=
  if mapContains s.cache k then lruDelete s k
  else if s.cache.length = max then
    match lruFirst s with
    | some firstKey => lruDelete s firstKey
    | none => s
  else s

/-- `set(key, val, { timeoutInMs })` on an `LRU` constructed with capacity
`max`: run the reset/evict prologue, then insert the value and schedule a
fresh removal timer, recording its id in `timeoutMap`. -/
def lruSet {K V : Type} [DecidableEq K] (max : Nat) (s : LRUState K V)
    (k : K) (v : V) (timeoutInMs : Nat) : LRUState K V :=
  let s1 : LRUState K V := lruEvictTarget max s k
  { cache := mapSet s1.cache k v,
    timeoutMap := mapSet s1.timeoutMap k s1.nextId,
    scheduled := s1.scheduled ++ [(s1.nextId, k, timeoutInMs)],
    nextId := s1.nextId + 1 }

/-- The callback of timer `tid` running: if the timer is still scheduled
for key `k`, delete `k` from `cache` and `timeoutMap` (the body of the
`setTimeout` callback in `set`); a cleared or already-fired timer does
nothing. -/
def fireTimer {K V : Type} [DecidableEq K] (s : LRUState K V) (tid : Nat) : LRUState K V :=
  match s.scheduled.find? (fun t => t.1 = tid) with
  | none => s
  | some t =>
    { cache := mapDelete s.cache t.2.1,
      timeoutMap := mapDelete s.timeoutMap t.2.1,
      scheduled := s.scheduled.filter (fun u => u.1 ≠ tid),
      nextId := s.nextId }

/-- One cache operation, as invoked by client code. -/
inductive LRUOp (K V : Type) where
  | get : K → LRUOp K V
  | set : K → V → (timeoutInMs : Nat) → LRUOp K V
  | del : K → LRUOp K V

/-- Apply one operation to the state. -/
def applyOp {K V : Type} [DecidableEq K] (max : Nat) (s : LRUState K V) :
    LRUOp K V → LRUState K V
  | LRUOp.get k => (lruGet s k).2
  | LRUOp.set k v t => lruSet max s k v t
  | LRUOp.del k => lruDelete s k

/-- Run a sequence of operations from the empty cache. -/
def runOps {K V : Type} [DecidableEq K] (max : Nat) (ops : List (LRUOp K V)) : LRUState K V :=
  ops.foldl (applyOp max) (emptyLRU K V)

/-- Well-formedness of an `LRU` state, as maintained by the class: map keys
are unique, scheduled timer ids are unique and below `nextId`, every
recorded timer id is below `nextId`, and every key with a recorded timer is
present in the cache. -/
def lruWF {K V : Type} [DecidableEq K] (s : LRUState K V) : Prop :=
  (s.cache.map Prod.fst).Nodup ∧
  (s.timeoutMap.map Prod.fst).Nodup ∧
  (s.scheduled.map (fun t => t.1)).Nodup ∧
  (∀ t ∈ s.scheduled, t.1 < s.nextId) ∧
  (∀ kt ∈ s.timeoutMap, kt.2 < s.nextId) ∧
  (∀ kt ∈ s.timeoutMap, mapContains s.cache kt.1 = true)

/-- `defaultExport` from `createPage` (src/lib/index.ts lines 149-162) and
`implementLayoutFrontend` (src/lib/client.ts lines 31-42): deserialize the
received props when configured, derive the exported internal props (or
`{}`), call the page with `{ ...serverSideProps, ...exportedInternalProps }`,
and hand the result to the layout component. -/
def defaultExport (input : RenderInput) (receivedProps : JVal) : JVal :=
  let props : JVal :=
    match input.deserialize with
    | some d => d receivedProps
    | none => receivedProps
  let exportedInternalProps : JVal :=
    match input.generateExportedInternalProps with
    | some g => g (jgetD props "internalProps")
    | none => JVal.obj []
  let layoutProps : JVal :=
    input.page (jspread (jgetD props "serverSideProps") exportedInternalProps)
  input.layoutComponent
    (JVal.obj [("internalProps", jgetD props "internalProps"), ("layoutProps", layoutProps)])

/-- The same caching options with the cache lookup succeeding as a miss. -/
def withGetMiss (c : CachingOptions) : CachingOptions :=
  { c with getOutcome := fun _ => Except.ok none }

/-- The same caching options with a different settled outcome for the
discarded `set` promise. -/
def withSetOutcome (c : CachingOptions) (f : String → Except JVal Unit) : CachingOptions :=
  { c with setOutcome := f }

/-- The same request with the caching options replaced. -/
def withCaching (input : OrchestratorInput) (c : Option CachingOptions) :
    OrchestratorInput :=
  { input with caching := c }

/-!
Concrete instances used to evaluate the theorems on closed inputs.
-/

/-- Scenario A of the spec: layout fetch returns
`{ props: { layout: { user: { id: 1 } }, locals: { role: "admin" } } }`,
the page fetch (no caching) returns `{ props: { items: [1, 2] } }`. -/
def scenarioAInput : OrchestratorInput where
  layoutFetch := some (Except.ok (GSSPResult.props (JVal.obj
    [("layout", JVal.obj [("user", JVal.obj [("id", JVal.num 1)])]),
     ("locals", JVal.obj [("role", JVal.str "admin")])])))
  passthrough := fun _ => Except.ok (GSSPResult.props (JVal.obj
    [("items", JVal.arr [JVal.num 1, JVal.num 2])]))
  caching := none
  serializer := none
  exceptionHandler := none

/-- A well-behaved caching configuration whose cache is empty. -/
def exampleCaching : CachingOptions where
  hash := fun _ => Except.ok "key1"
  getOutcome := fun _ => Except.ok none
  setOutcome := fun _ => Except.ok ()
  timeoutInMs := 1000

/-- Scenario B of the spec: the layout fetch short-circuits with
`{ redirect: { destination: "/login", permanent: false } }`; the page has
caching configured and a page fetch function. -/
def shortCircuitInput : OrchestratorInput where
  layoutFetch := some (Except.ok (GSSPResult.redirect "/login" false))
  passthrough := fun _ => Except.ok (GSSPResult.props (JVal.obj []))
  caching := some exampleCaching
  serializer := none
  exceptionHandler := none

/-- A request whose layout fetch rejects with the value `"boom"`, with an
exception handler that renders the error. -/
def throwingLayoutInput : OrchestratorInput where
  layoutFetch := some (Except.error (JVal.str "boom"))
  passthrough := fun _ => Except.ok (GSSPResult.props (JVal.obj []))
  caching := none
  serializer := none
  exceptionHandler := some (fun e => Except.ok (GSSPResult.props e))

/-- A caching configuration whose backing store rejects every operation. -/
def failingCaching : CachingOptions where
  hash := fun _ => Except.ok "key1"
  getOutcome := fun _ => Except.error (JVal.str "cache down")
  setOutcome := fun _ => Except.error (JVal.str "cache down")
  timeoutInMs := 1000

/-- A cached page whose cache rejects lookups and writes. -/
def failingCacheInput : OrchestratorInput where
  layoutFetch := some (Except.ok (GSSPResult.props (JVal.obj [])))
  passthrough := fun _ => Except.ok (GSSPResult.props (JVal.obj [("items", JVal.num 3)]))
  caching := some failingCaching
  serializer := none
  exceptionHandler := none

/-- A backend request with an `executeTransform` capability that returns
the `internalProps` member of the composed object it receives. -/
def backendTransformInput : BackendInput where
  layoutFetch := some (Except.ok (GSSPResult.props (JVal.obj
    [("layout", JVal.obj [("user", JVal.num 7)]), ("locals", JVal.obj [])])))
  passthrough := fun _ => Except.ok (GSSPResult.props (JVal.obj [("items", JVal.num 3)]))
  caching := none
  serialize := none
  executeTransform := some (fun props => Except.ok (jgetD props "internalProps"))
  exceptionHandler := none

/-- A render configuration whose export projection collides with a
server-side key (`"x"`). -/
def collidingRenderInput : RenderInput where
  deserialize := none
  generateExportedInternalProps :=
    some (fun internal => JVal.obj [("x", JVal.num 2), ("extra", internal)])
  page := fun merged => merged
  layoutComponent := fun v => v

/-- The received props used with `collidingRenderInput`. -/
def collidingReceivedProps : JVal :=
  JVal.obj [("serverSideProps", JVal.obj [("x", JVal.num 1), ("z", JVal.num 9)]),
    ("internalProps", JVal.obj [("u", JVal.num 5)])]

/-- An LRU state as reached by one `set "a"` on a fresh cache. -/
def oneEntryState : LRUState String Nat where
  cache := [("a", 1)]
  timeoutMap := [("a", 0)]
  scheduled := [(0, "a", 100)]
  nextId := 1

/-- An LRU state holding two entries, no timers pending. -/
def twoEntryState : LRUState String Nat where
  cache := [("a", 1), ("b", 2)]
  timeoutMap := []
  scheduled := []
  nextId := 0

section MapLemmas

variable {K V : Type} [DecidableEq K]

theorem mapGet_eq_none_iff (m : List (K × V)) (k : K) :
    mapGet m k = none ↔ k ∉ m.map Prod.fst := by
  induction m with
  | nil => simp [mapGet]
  | cons kv rest ih =>
    obtain ⟨k', v⟩ := kv
    by_cases h : k' = k
    · subst h
      simp [mapGet]
    · rw [List.map_cons, List.mem_cons]
      simp only [mapGet, h, if_false, ih]
      constructor
      · intro hn hc
        rcases hc with hc | hc
        · exact h hc.symm
        · exact hn hc
      · intro hn hc
        exact hn (Or.inr hc)

theorem mapContains_iff_mem (m : List (K × V)) (k : K) :
    mapContains m k = true ↔ k ∈ m.map Prod.fst := by
  rw [mapContains, Option.isSome_iff_ne_none, ne_eq, mapGet_eq_none_iff, not_not]

theorem mapContains_eq_false_iff (m : List (K × V)) (k : K) :
    mapContains m k = false ↔ k ∉ m.map Prod.fst := by
  rw [← Bool.not_eq_true, mapContains_iff_mem]

theorem mapGet_append (a b : List (K × V)) (k : K) :
    mapGet (a ++ b) k =
      match mapGet a k with
      | some v => some v
      | none => mapGet b k := by
  induction a with
  | nil => simp [mapGet]
  | cons kv rest ih =>
    by_cases h : kv.1 = k <;> simp [mapGet, h, ih]

theorem mapDelete_of_not_mem (m : List (K × V)) (k : K)
    (h : k ∉ m.map Prod.fst) : mapDelete m k = m := by
  induction m with
  | nil => rfl
  | cons kv rest ih =>
    obtain ⟨k', v⟩ := kv
    rw [List.map_cons, List.mem_cons] at h
    push_neg at h
    have hne : k' ≠ k := fun hc => h.1 hc.symm
    rw [mapDelete, List.filter_cons_of_pos (by simp [hne])]
    show (k', v) :: mapDelete rest k = (k', v) :: rest
    rw [ih h.2]

theorem mapGet_mapDelete_self (m : List (K × V)) (k : K) :
    mapGet (mapDelete m k) k = none := by
  induction m with
  | nil => rfl
  | cons kv rest ih =>
    obtain ⟨k', v⟩ := kv
    by_cases h : k' = k
    · subst h
      rw [mapDelete, List.filter_cons_of_neg (by simp)]
      exact ih
    · rw [mapDelete, List.filter_cons_of_pos (by simp [h])]
      show mapGet ((k', v) :: mapDelete rest k) k = none
      rw [mapGet, if_neg h]
      exact ih

theorem mapDelete_cons_self (k : K) (v : V) (rest : List (K × V))
    (h : k ∉ rest.map Prod.fst) : mapDelete ((k, v) :: rest) k = rest := by
  rw [mapDelete, List.filter_cons_of_neg (by simp)]
  show mapDelete rest k = rest
  exact mapDelete_of_not_mem rest k h

theorem mapSet_of_not_contains (m : List (K × V)) (k : K) (v : V)
    (h : mapContains m k = false) : mapSet m k v = m ++ [(k, v)] := by
  simp [mapSet, h]

theorem mapDelete_length_le (m : List (K × V)) (k : K) :
    (mapDelete m k).length ≤ m.length :=
  List.length_filter_le _ m

theorem mapDelete_sublist (m : List (K × V)) (k : K) :
    List.Sublist (mapDelete m k) m :=
  List.filter_sublist m

theorem mapDelete_nodup (m : List (K × V)) (k : K)
    (h : (m.map Prod.fst).Nodup) : ((mapDelete m k).map Prod.fst).Nodup :=
  List.Nodup.sublist (List.Sublist.map Prod.fst (mapDelete_sublist m k)) h

theorem mapGet_mem (m : List (K × V)) (k : K) (v : V)
    (h : mapGet m k = some v) : (k, v) ∈ m := by
  induction m with
  | nil => simp [mapGet] at h
  | cons kv rest ih =>
    obtain ⟨k', v'⟩ := kv
    by_cases hk : k' = k
    · subst hk
      rw [mapGet, if_pos rfl] at h
      rw [Option.some.injEq] at h
      subst h
      exact List.mem_cons_self _ _
    · rw [mapGet, if_neg hk] at h
      exact List.mem_cons_of_mem _ (ih h)

theorem mem_of_mapGet_isSome (m : List (K × V)) (k : K)
    (h : mapContains m k = true) : k ∈ m.map Prod.fst := by
  exact (mapContains_iff_mem m k).1 h

theorem mapDelete_length_of_mem (m : List (K × V)) (k : K)
    (hnd : (m.map Prod.fst).Nodup) (hmem : k ∈ m.map Prod.fst) :
    (mapDelete m k).length + 1 = m.length := by
  induction m with
  | nil => simp at hmem
  | cons kv rest ih =>
    obtain ⟨k', v⟩ := kv
    rw [List.map_cons, List.nodup_cons] at hnd
    rcases List.mem_cons.1 hmem with h | h
    · subst h
      rw [mapDelete_cons_self _ _ _ hnd.1]
      simp
    · have hne : k' ≠ k := fun hc => hnd.1 (hc ▸ h)
      rw [mapDelete, List.filter_cons_of_pos (by simp [hne])]
      show (mapDelete rest k).length + 1 + 1 = rest.length + 1
      rw [ih hnd.2 h]

end MapLemmas

section SpreadLemmas

theorem mapGet_map_override (a b : List (String × JVal)) (k : String) :
    mapGet (a.map (fun kv =>
      match mapGet b kv.1 with
      | some v => (kv.1, v)
      | none => kv)) k =
      match mapGet a k with
      | none => none
      | some va =>
        match mapGet b k with
        | some vb => some vb
        | none => some va := by
  induction a with
  | nil => simp [mapGet]
  | cons kv rest ih =>
    by_cases h : kv.1 = k
    · subst h
      cases hb : mapGet b kv.1 <;> simp [mapGet, hb]
    · cases hb : mapGet b kv.1 <;> simp [mapGet, hb, h, ih]

theorem mapGet_filter_not_contains (a b : List (String × JVal)) (k : String) :
    mapGet (b.filter (fun kv => !(mapContains a kv.1))) k =
      match mapGet a k with
      | some _ => none
      | none => mapGet b k := by
  induction b with
  | nil => cases mapGet a k <;> simp [mapGet]
  | cons kv rest ih =>
    obtain ⟨k', v⟩ := kv
    by_cases h : k' = k
    · subst h
      cases hga : mapGet a k'
      · have ha : mapContains a k' = false := by rw [mapContains, hga]; rfl
        rw [List.filter_cons_of_pos (by simp [ha]), mapGet, if_pos rfl, mapGet, if_pos rfl]
      · have ha : mapContains a k' = true := by rw [mapContains, hga]; rfl
        rw [List.filter_cons_of_neg (by simp [ha]), ih, hga]
    · cases ha : mapContains a k'
      · rw [List.filter_cons_of_pos (by simp [ha])]
        show mapGet ((k', v) :: List.filter _ rest) k = _
        rw [mapGet, if_neg h, ih]
        cases mapGet a k
        · rw [mapGet, if_neg h]
        · rfl
      · rw [List.filter_cons_of_neg (by simp [ha]), ih]
        cases mapGet a k
        · rw [mapGet, if_neg h]
        · rfl

theorem mapGet_spreadFields (a b : List (String × JVal)) (k : String) :
    mapGet (spreadFields a b) k =
      match mapGet b k with
      | some v => some v
      | none => mapGet a k := by
  rw [spreadFields, mapGet_append, mapGet_map_override, mapGet_filter_not_contains]
  cases ha : mapGet a k <;> cases hb : mapGet b k <;> simp

theorem jget_jspread_right (a b : JVal) (k : String) (v : JVal)
    (h : jget b k = some v) : jget (jspread a b) k = some v := by
  cases b with
  | obj fieldsB =>
    simp only [jget] at h
    simp [jspread, jget, toFields, mapGet_spreadFields, h]
  | null => simp [jget] at h
  | bool b => simp [jget] at h
  | num n => simp [jget] at h
  | str s => simp [jget] at h
  | arr xs => simp [jget] at h

end SpreadLemmas

section OrchestratorLemmas

theorem run_trace (input : OrchestratorInput) : (run input).2 = (tryBody input).2 := by
  rw [run]
  rcases h : tryBody input with ⟨r, tr⟩
  cases r <;> rfl

theorem pageFetch_locals_of_mem_phase (c : Option CachingOptions)
    (pt : JVal → Except JVal GSSPResult) (locals l : JVal)
    (h : Event.pageFetch l ∈ (pageFetchPhase c pt locals).2) : l = locals := by
  cases c with
  | none =>
    cases hp : pt locals <;> simp [pageFetchPhase, hp] at h <;> exact h
  | some cfg =>
    cases hh : cfg.hash locals with
    | error e => simp [pageFetchPhase, hh] at h
    | ok key =>
      cases hg : cfg.getOutcome key with
      | error e =>
        cases hp : pt locals <;> simp [pageFetchPhase, hh, hg, hp] at h <;> exact h
      | ok hit =>
        cases hit with
        | none =>
          cases hp : pt locals <;> simp [pageFetchPhase, hh, hg, hp] at h <;> exact h
        | some r => simp [pageFetchPhase, hh, hg] at h

theorem layoutFetch_not_mem_phase (c : Option CachingOptions)
    (pt : JVal → Except JVal GSSPResult) (locals : JVal) :
    Event.layoutFetch ∉ (pageFetchPhase c pt locals).2 := by
  cases c with
  | none =>
    cases hp : pt locals <;> simp [pageFetchPhase, hp]
  | some cfg =>
    cases hh : cfg.hash locals with
    | error e => simp [pageFetchPhase, hh]
    | ok key =>
      cases hg : cfg.getOutcome key with
      | error e =>
        cases hp : pt locals <;> simp [pageFetchPhase, hh, hg, hp]
      | ok hit =>
        cases hit with
        | none =>
          cases hp : pt locals <;> simp [pageFetchPhase, hh, hg, hp]
        | some r => simp [pageFetchPhase, hh, hg]

theorem tryBody_trace_of_props (input : OrchestratorInput) (p : JVal)
    (hOut : layoutOutcome input = Except.ok (GSSPResult.props p)) :
    (tryBody input).2 =
      (match input.layoutFetch with
       | some _ => [Event.layoutFetch]
       | none => ([] : List Event)) ++
      (pageFetchPhase input.caching input.passthrough (declaredLocals p)).2 := by
  simp only [tryBody, hOut]
  rcases hP : pageFetchPhase input.caching input.passthrough (declaredLocals p) with ⟨r, tr⟩
  cases r with
  | error e => rfl
  | ok g => cases g <;> rfl

theorem withCaching_layoutFetch (input : OrchestratorInput) (c' : Option CachingOptions) :
    (withCaching input c').layoutFetch = input.layoutFetch := rfl

theorem withCaching_passthrough (input : OrchestratorInput) (c' : Option CachingOptions) :
    (withCaching input c').passthrough = input.passthrough := rfl

theorem withCaching_caching (input : OrchestratorInput) (c' : Option CachingOptions) :
    (withCaching input c').caching = c' := rfl

theorem withCaching_serializer (input : OrchestratorInput) (c' : Option CachingOptions) :
    (withCaching input c').serializer = input.serializer := rfl

theorem withCaching_exceptionHandler (input : OrchestratorInput)
    (c' : Option CachingOptions) :
    (withCaching input c').exceptionHandler = input.exceptionHandler := rfl

theorem layoutOutcome_withCaching (input : OrchestratorInput)
    (c' : Option CachingOptions) :
    layoutOutcome (withCaching input c') = layoutOutcome input := rfl

theorem run_caching_congr_all (input : OrchestratorInput) (c' : Option CachingOptions)
    (hphase : ∀ l, pageFetchPhase c' input.passthrough l
      = pageFetchPhase input.caching input.passthrough l) :
    run (withCaching input c') = run input := by
  have ht : tryBody (withCaching input c') = tryBody input := by
    simp only [tryBody, layoutOutcome, withCaching_layoutFetch, withCaching_passthrough,
      withCaching_caching, withCaching_serializer]
    cases input.layoutFetch with
    | none => simp only [hphase]
    | some r =>
      cases r with
      | error e => rfl
      | ok g =>
        cases g with
        | props p => simp only [hphase]
        | redirect d pm => rfl
        | notFound => rfl
  simp only [run, ht, withCaching_exceptionHandler]

theorem run_caching_congr (input : OrchestratorInput) (c' : Option CachingOptions) (p : JVal)
    (hOut : layoutOutcome input = Except.ok (GSSPResult.props p))
    (hphase : pageFetchPhase c' input.passthrough (declaredLocals p)
      = pageFetchPhase input.caching input.passthrough (declaredLocals p)) :
    run (withCaching input c') = run input := by
  have ht : tryBody (withCaching input c') = tryBody input := by
    simp only [tryBody, layoutOutcome_withCaching, withCaching_layoutFetch,
      withCaching_passthrough, withCaching_caching, withCaching_serializer, hOut, hphase]
  simp only [run, ht, withCaching_exceptionHandler]

end OrchestratorLemmas

section LRULemmas

theorem keys_snoc {K V : Type} (l : List (K × V)) (k : K) (v : V) :
    (l ++ [(k, v)]).map Prod.fst = l.map Prod.fst ++ [k] := by simp

variable {K V : Type} [DecidableEq K]

theorem mapGet_cons_self (k : K) (v : V) (l : List (K × V)) :
    mapGet ((k, v) :: l) k = some v := by
  simp [mapGet]

theorem mapGet_cons_ne (k k' : K) (v : V) (l : List (K × V)) (h : k' ≠ k) :
    mapGet ((k', v) :: l) k = mapGet l k := by
  simp [mapGet, h]

theorem mapGet_replace (m : List (K × V)) (k : K) (v : V) :
    mapGet (m.map (fun kv => if kv.1 = k then (k, v) else kv)) k
      = (mapGet m k).map (fun _ => v) := by
  induction m with
  | nil => rfl
  | cons kv rest ih =>
    obtain ⟨k', w⟩ := kv
    rw [List.map_cons]
    by_cases h : k' = k
    · subst h
      have hcond : ((k', w) : K × V).1 = k' := rfl
      rw [if_pos hcond, mapGet_cons_self, mapGet_cons_self]
      rfl
    · have hcond : ¬ ((k', w) : K × V).1 = k := h
      rw [if_neg hcond, mapGet_cons_ne _ _ _ _ h, mapGet_cons_ne _ _ _ _ h, ih]

theorem mapGet_mapSet_self (m : List (K × V)) (k : K) (v : V) :
    mapGet (mapSet m k v) k = some v := by
  rw [mapSet]
  by_cases hc : mapContains m k = true
  · rw [if_pos hc, mapGet_replace]
    rw [mapContains] at hc
    cases h2 : mapGet m k
    · rw [h2] at hc
      simp at hc
    · rfl
  · rw [if_neg hc, mapGet_append]
    have hnone : mapGet m k = none := by
      rw [mapContains] at hc
      cases h2 : mapGet m k
      · rfl
      · rw [h2] at hc
        simp at hc
    rw [hnone]
    simp [mapGet]

theorem nodup_snoc {α : Type} (l : List α) (a : α) (hnd : l.Nodup) (ha : a ∉ l) :
    (l ++ [a]).Nodup := by
  rw [List.nodup_append]
  refine ⟨hnd, List.nodup_singleton a, ?_⟩
  intro x hx hxa
  rw [List.mem_singleton] at hxa
  subst hxa
  exact ha hx

theorem find?_append_left_none {α : Type} (p : α → Bool) (l1 l2 : List α)
    (h : ∀ x ∈ l1, p x = false) : (l1 ++ l2).find? p = l2.find? p := by
  induction l1 with
  | nil => rfl
  | cons a rest ih =>
    rw [List.cons_append, List.find?_cons_of_neg _ (by simp [h a (List.mem_cons_self a rest)])]
    exact ih (fun x hx => h x (List.mem_cons_of_mem a hx))

theorem find?_none_of_all {α : Type} (p : α → Bool) (l : List α)
    (h : ∀ x ∈ l, p x = false) : l.find? p = none := by
  induction l with
  | nil => rfl
  | cons a rest ih =>
    rw [List.find?_cons_of_neg _ (by simp [h a (List.mem_cons_self a rest)])]
    exact ih (fun x hx => h x (List.mem_cons_of_mem a hx))

theorem exists_concat_of_length_pos {α : Type} (l : List α) (h : 0 < l.length) :
    ∃ front lastp, l = front ++ [lastp] := by
  induction l with
  | nil => simp at h
  | cons a rest ih =>
    cases hr : rest with
    | nil => exact ⟨[], a, rfl⟩
    | cons b r2 =>
      obtain ⟨f, lp, hf⟩ := ih (by rw [hr]; simp)
      exact ⟨a :: f, lp, by rw [← hr, hf]; rfl⟩

theorem lruDelete_nextId (s : LRUState K V) (k : K) :
    (lruDelete s k).nextId = s.nextId := rfl

theorem lruDelete_cache (s : LRUState K V) (k : K) :
    (lruDelete s k).cache = mapDelete s.cache k := rfl

theorem lruDelete_scheduled_mem (s : LRUState K V) (k : K) :
    ∀ t ∈ (lruDelete s k).scheduled, t ∈ s.scheduled := by
  intro t ht
  cases hg : mapGet s.timeoutMap k with
  | none =>
    simp only [lruDelete, hg] at ht
    exact ht
  | some tid =>
    simp only [lruDelete, hg] at ht
    exact (List.mem_filter.1 ht).1

theorem lruEvictTarget_nextId (max : Nat) (s : LRUState K V) (k : K) :
    (lruEvictTarget max s k).nextId = s.nextId := by
  rw [lruEvictTarget]
  split
  · rfl
  · split
    · cases lruFirst s with
      | none => rfl
      | some fk => rfl
    · rfl

theorem lruEvictTarget_scheduled_mem (max : Nat) (s : LRUState K V) (k : K) :
    ∀ t ∈ (lruEvictTarget max s k).scheduled, t ∈ s.scheduled := by
  intro t
  rw [lruEvictTarget]
  split
  · exact lruDelete_scheduled_mem s k t
  · split
    · cases lruFirst s with
      | none => exact id
      | some fk => exact lruDelete_scheduled_mem s fk t
    · exact id

theorem lruEvictTarget_of_contains (max : Nat) (s : LRUState K V) (k : K)
    (hc : mapContains s.cache k = true) :
    lruEvictTarget max s k = lruDelete s k := by
  rw [lruEvictTarget, if_pos hc]

theorem lruSet_cache_eq (max : Nat) (s : LRUState K V) (k : K) (v : V) (tms : Nat) :
    (lruSet max s k v tms).cache = mapSet (lruEvictTarget max s k).cache k v := rfl

theorem lruSet_timeoutMap_eq (max : Nat) (s : LRUState K V) (k : K) (v : V) (tms : Nat) :
    (lruSet max s k v tms).timeoutMap
      = mapSet (lruEvictTarget max s k).timeoutMap k (lruEvictTarget max s k).nextId := rfl

theorem lruSet_scheduled_eq (max : Nat) (s : LRUState K V) (k : K) (v : V) (tms : Nat) :
    (lruSet max s k v tms).scheduled
      = (lruEvictTarget max s k).scheduled
        ++ [((lruEvictTarget max s k).nextId, k, tms)] := rfl

theorem fireTimer_of_find (s : LRUState K V) (tid : Nat) (t : Nat × K × Nat)
    (h : s.scheduled.find? (fun u => u.1 = tid) = some t) :
    fireTimer s tid = LRUState.mk (mapDelete s.cache t.2.1)
      (mapDelete s.timeoutMap t.2.1)
      (s.scheduled.filter (fun u => u.1 ≠ tid)) s.nextId := by
  rw [fireTimer, h]

theorem fireTimer_of_none (s : LRUState K V) (tid : Nat)
    (h : s.scheduled.find? (fun u => u.1 = tid) = none) :
    fireTimer s tid = s := by
  rw [fireTimer, h]

theorem lruEvictTarget_fresh_small (max : Nat) (s : LRUState K V) (k : K)
    (hfresh : k ∉ s.cache.map Prod.fst) (hlen : s.cache.length < max) :
    lruEvictTarget max s k = s := by
  have hc : mapContains s.cache k = false := (mapContains_eq_false_iff _ _).2 hfresh
  rw [lruEvictTarget, if_neg (by simp [hc]), if_neg (Nat.ne_of_lt hlen)]

theorem lruSet_cache_fresh_small (max : Nat) (s : LRUState K V) (k : K) (v : V)
    (tms : Nat) (hfresh : k ∉ s.cache.map Prod.fst) (hlen : s.cache.length < max) :
    (lruSet max s k v tms).cache = s.cache ++ [(k, v)] := by
  rw [lruSet_cache_eq, lruEvictTarget_fresh_small max s k hfresh hlen]
  exact mapSet_of_not_contains _ _ _ ((mapContains_eq_false_iff _ _).2 hfresh)

theorem lruEvictTarget_fresh_full (max : Nat) (s : LRUState K V) (k k0 : K) (v0 : V)
    (rest : List (K × V)) (hfresh : k ∉ s.cache.map Prod.fst)
    (hcc : s.cache = (k0, v0) :: rest) (hlen : s.cache.length = max) :
    lruEvictTarget max s k = lruDelete s k0 := by
  have hc : mapContains s.cache k = false := (mapContains_eq_false_iff _ _).2 hfresh
  have hf : lruFirst s = some k0 := by rw [lruFirst, hcc]; rfl
  rw [lruEvictTarget, if_neg (by simp [hc]), if_pos hlen, hf]

theorem lruSet_cache_fresh_full (max : Nat) (s : LRUState K V) (k : K) (v : V)
    (tms : Nat) (hnd : (s.cache.map Prod.fst).Nodup)
    (hfresh : k ∉ s.cache.map Prod.fst) (k0 : K) (v0 : V) (rest : List (K × V))
    (hcc : s.cache = (k0, v0) :: rest) (hlen : s.cache.length = max) :
    (lruSet max s k v tms).cache = rest ++ [(k, v)] := by
  rw [lruSet_cache_eq, lruEvictTarget_fresh_full max s k k0 v0 rest hfresh hcc hlen,
    lruDelete_cache]
  have hk0 : k0 ∉ rest.map Prod.fst := by
    rw [hcc, List.map_cons, List.nodup_cons] at hnd
    exact hnd.1
  have hdel : mapDelete s.cache k0 = rest := by
    rw [hcc]
    exact mapDelete_cons_self _ _ _ hk0
  rw [hdel]
  refine mapSet_of_not_contains _ _ _ ((mapContains_eq_false_iff _ _).2 ?_)
  rw [hcc, List.map_cons, List.mem_cons] at hfresh
  push_neg at hfresh
  exact hfresh.2

theorem lruSet_cache_present (max : Nat) (s : LRUState K V) (k : K) (v : V)
    (tms : Nat) (hc : mapContains s.cache k = true) :
    (lruSet max s k v tms).cache = mapDelete s.cache k ++ [(k, v)] := by
  rw [lruSet_cache_eq, lruEvictTarget_of_contains max s k hc, lruDelete_cache]
  exact mapSet_of_not_contains _ _ _ (by rw [mapContains, mapGet_mapDelete_self]; rfl)

/-- The invariant maintained on the `cache` map: unique keys, at most
`max` entries. -/
def goodCache (max : Nat) {K V : Type} [DecidableEq K] (s : LRUState K V) : Prop :=
  (s.cache.map Prod.fst).Nodup ∧ s.cache.length ≤ max

theorem lruGet_preserves_goodCache (max : Nat) (s : LRUState K V) (k : K)
    (h : goodCache max s) : goodCache max ((lruGet s k).2) := by
  rcases h with ⟨hnd, hlen⟩
  cases hg : mapGet s.cache k with
  | none =>
    simp only [lruGet, hg]
    exact ⟨hnd, hlen⟩
  | some v =>
    simp only [lruGet, hg]
    have hni : mapContains (mapDelete s.cache k) k = false := by
      rw [mapContains, mapGet_mapDelete_self]; rfl
    have hset := mapSet_of_not_contains (mapDelete s.cache k) k v hni
    have hnotin : k ∉ (mapDelete s.cache k).map Prod.fst := by
      rw [← mapGet_eq_none_iff]
      exact mapGet_mapDelete_self _ _
    have hmem : k ∈ s.cache.map Prod.fst :=
      List.mem_map_of_mem Prod.fst (mapGet_mem s.cache k v hg)
    have hdl := mapDelete_length_of_mem s.cache k hnd hmem
    constructor
    · show ((mapSet (mapDelete s.cache k) k v).map Prod.fst).Nodup
      rw [hset, keys_snoc]
      exact nodup_snoc _ _ (mapDelete_nodup _ _ hnd) hnotin
    · show (mapSet (mapDelete s.cache k) k v).length ≤ max
      rw [hset, List.length_append, List.length_singleton]
      omega

theorem lruDelete_preserves_goodCache (max : Nat) (s : LRUState K V) (k : K)
    (h : goodCache max s) : goodCache max (lruDelete s k) :=
  ⟨mapDelete_nodup _ _ h.1, le_trans (mapDelete_length_le _ _) h.2⟩

theorem lruSet_preserves_goodCache (max : Nat) (hmax : 1 ≤ max) (s : LRUState K V)
    (k : K) (v : V) (tms : Nat) (h : goodCache max s) :
    goodCache max (lruSet max s k v tms) := by
  rcases h with ⟨hnd, hlen⟩
  by_cases hc : mapContains s.cache k = true
  · have hcache := lruSet_cache_present max s k v tms hc
    have hmem : k ∈ s.cache.map Prod.fst := (mapContains_iff_mem _ _).1 hc
    have hdl := mapDelete_length_of_mem s.cache k hnd hmem
    have hnotin : k ∉ (mapDelete s.cache k).map Prod.fst := by
      rw [← mapGet_eq_none_iff]
      exact mapGet_mapDelete_self _ _
    constructor
    · rw [hcache, keys_snoc]
      exact nodup_snoc _ _ (mapDelete_nodup _ _ hnd) hnotin
    · rw [hcache, List.length_append, List.length_singleton]
      omega
  · have hfresh : k ∉ s.cache.map Prod.fst :=
      (mapContains_eq_false_iff _ _).1 (Bool.eq_false_iff.2 hc)
    by_cases hfull : s.cache.length = max
    · cases hcc : s.cache with
      | nil =>
        rw [hcc] at hfull
        simp at hfull
        omega
      | cons kv rest =>
        obtain ⟨k0, v0⟩ := kv
        have hcache := lruSet_cache_fresh_full max s k v tms hnd hfresh k0 v0 rest hcc hfull
        have hrest : (rest.map Prod.fst).Nodup := by
          rw [hcc, List.map_cons, List.nodup_cons] at hnd
          exact hnd.2
        have hkrest : k ∉ rest.map Prod.fst := by
          rw [hcc, List.map_cons, List.mem_cons] at hfresh
          push_neg at hfresh
          exact hfresh.2
        constructor
        · rw [hcache, keys_snoc]
          exact nodup_snoc _ _ hrest hkrest
        · rw [hcache, List.length_append, List.length_singleton]
          rw [hcc] at hfull
          simp only [List.length_cons] at hfull
          omega
    · have hsmall : s.cache.length < max := Nat.lt_of_le_of_ne hlen hfull
      have hcache := lruSet_cache_fresh_small max s k v tms hfresh hsmall
      constructor
      · rw [hcache, keys_snoc]
        exact nodup_snoc _ _ hnd hfresh
      · rw [hcache, List.length_append, List.length_singleton]
        omega

theorem lruSet_foldl_fill (max tms : Nat) (ks : List (K × V)) :
    ∀ (s : LRUState K V),
      (s.cache.map Prod.fst ++ ks.map Prod.fst).Nodup →
      s.cache.length + ks.length ≤ max →
      (ks.foldl (fun st kv => lruSet max st kv.1 kv.2 tms) s).cache = s.cache ++ ks := by
  induction ks with
  | nil =>
    intro s _ _
    simp
  | cons kv rest ih =>
    obtain ⟨k, v⟩ := kv
    intro s hnd hlen
    rw [List.foldl_cons]
    have hfresh : k ∉ s.cache.map Prod.fst := by
      intro hk
      exact (List.nodup_append.1 hnd).2.2 hk (by simp)
    have hsmall : s.cache.length < max := by
      simp only [List.length_cons] at hlen
      omega
    have hstep := lruSet_cache_fresh_small max s k v tms hfresh hsmall
    have h1 : ((lruSet max s k v tms).cache.map Prod.fst
        ++ rest.map Prod.fst).Nodup := by
      rw [hstep, keys_snoc, List.append_assoc]
      simpa using hnd
    have h2 : (lruSet max s k v tms).cache.length + rest.length ≤ max := by
      rw [hstep, List.length_append, List.length_singleton]
      simp only [List.length_cons] at hlen
      omega
    rw [ih _ h1 h2, hstep, List.append_assoc, List.singleton_append]

end LRULemmas

section Claims

/-- C1: when the layout fetch returns props and the (uncached) page fetch
returns props, the orchestrator's output is `{ props: C }` where `C` is
exactly the two-field object
`{ serverSideProps: <page props>, internalProps: <layout props> }`,
serialized when a serializer was supplied (`serializeStep`). -/
theorem composed_output_is_exactly_two_fields (input : OrchestratorInput)
    (p sp : JVal) (outcome : GSSPResult)
    (hLayout : input.layoutFetch = some (Except.ok (GSSPResult.props p)))
    (hCaching : input.caching = none)
    (hPage : input.passthrough (declaredLocals p) = Except.ok (GSSPResult.props sp))
    (hSer : serializeStep input.serializer
      (composedProps sp (declaredLayout p)) = Except.ok outcome) :
    run input = (Except.ok outcome, [Event.layoutFetch, Event.pageFetch (declaredLocals p)]) := by
  simp [run, tryBody, layoutOutcome, hLayout, hCaching, pageFetchPhase, hPage, hSer]

/-- C1 witness: Scenario A evaluated — the output is
`{ props: { serverSideProps: { items: [1,2] }, internalProps: { user: { id: 1 } } } }`. -/
theorem composed_output_is_exactly_two_fields_witness :
    run scenarioAInput = (Except.ok (GSSPResult.props (JVal.obj
      [("serverSideProps", JVal.obj [("items", JVal.arr [JVal.num 1, JVal.num 2])]),
       ("internalProps", JVal.obj [("user", JVal.obj [("id", JVal.num 1)])])])),
      [Event.layoutFetch,
       Event.pageFetch (JVal.obj [("role", JVal.str "admin")])]) :=
  composed_output_is_exactly_two_fields scenarioAInput
    (JVal.obj [("layout", JVal.obj [("user", JVal.obj [("id", JVal.num 1)])]),
      ("locals", JVal.obj [("role", JVal.str "admin")])])
    (JVal.obj [("items", JVal.arr [JVal.num 1, JVal.num 2])])
    (GSSPResult.props (JVal.obj
      [("serverSideProps", JVal.obj [("items", JVal.arr [JVal.num 1, JVal.num 2])]),
       ("internalProps", JVal.obj [("user", JVal.obj [("id", JVal.num 1)])])]))
    rfl rfl rfl rfl

/-- C2: a layout short-circuit (any result without the `props` key) is
returned unchanged; the trace shows the layout fetch only — the page
fetch is never invoked and the cache is never consulted. -/
theorem layout_short_circuit_propagates (input : OrchestratorInput) (r : GSSPResult)
    (hLayout : input.layoutFetch = some (Except.ok r))
    (hSC : r.hasProps = false) :
    run input = (Except.ok r, [Event.layoutFetch]) := by
  cases r with
  | props q => simp [GSSPResult.hasProps] at hSC
  | redirect d pm => simp [run, tryBody, layoutOutcome, hLayout]
  | notFound => simp [run, tryBody, layoutOutcome, hLayout]

/-- C2 witness: Scenario B evaluated — the redirect passes through even
though caching and a page fetch function are configured. -/
theorem layout_short_circuit_propagates_witness :
    run shortCircuitInput =
      (Except.ok (GSSPResult.redirect "/login" false), [Event.layoutFetch]) :=
  layout_short_circuit_propagates shortCircuitInput
    (GSSPResult.redirect "/login" false) rfl rfl

/-- C3: whenever the page fetch function is invoked, its `locals` argument
is exactly the `locals` of the fully resolved layout result (defaulting to
`{}` when absent), and the layout fetch — when one exists — is the first
and only layout event of the trace, strictly before the page fetch. -/
theorem page_fetch_after_layout_with_locals (input : OrchestratorInput) (l : JVal)
    (hMem : Event.pageFetch l ∈ (run input).2) :
    (∃ p, layoutOutcome input = Except.ok (GSSPResult.props p) ∧ l = declaredLocals p) ∧
    (input.layoutFetch.isSome = true →
      ∃ tl, (run input).2 = Event.layoutFetch :: tl ∧ Event.pageFetch l ∈ tl ∧
        Event.layoutFetch ∉ tl) := by
  rw [run_trace] at hMem
  cases hLF : input.layoutFetch with
  | none =>
    have hOut : layoutOutcome input = Except.ok (GSSPResult.props (JVal.obj [])) := by
      simp [layoutOutcome, hLF]
    have htr := tryBody_trace_of_props input (JVal.obj []) hOut
    rw [hLF] at htr
    simp only [List.nil_append] at htr
    rw [htr] at hMem
    refine ⟨⟨JVal.obj [], hOut, pageFetch_locals_of_mem_phase _ _ _ _ hMem⟩, ?_⟩
    intro hSome
    simp at hSome
  | some res =>
    cases res with
    | error e =>
      exfalso
      have htr : (tryBody input).2 = [Event.layoutFetch] := by
        simp [tryBody, layoutOutcome, hLF]
      rw [htr] at hMem
      simp at hMem
    | ok g =>
      cases g with
      | redirect d pm =>
        exfalso
        have htr : (tryBody input).2 = [Event.layoutFetch] := by
          simp [tryBody, layoutOutcome, hLF]
        rw [htr] at hMem
        simp at hMem
      | notFound =>
        exfalso
        have htr : (tryBody input).2 = [Event.layoutFetch] := by
          simp [tryBody, layoutOutcome, hLF]
        rw [htr] at hMem
        simp at hMem
      | props p =>
        have hOut : layoutOutcome input = Except.ok (GSSPResult.props p) := by
          simp [layoutOutcome, hLF]
        have htr := tryBody_trace_of_props input p hOut
        rw [hLF] at htr
        simp only [List.cons_append, List.nil_append] at htr
        rw [htr] at hMem
        have hMem' : Event.pageFetch l ∈
            (pageFetchPhase input.caching input.passthrough (declaredLocals p)).2 := by
          rcases List.mem_cons.1 hMem with hc | hc
          · exact absurd hc (by simp)
          · exact hc
        refine ⟨⟨p, hOut, pageFetch_locals_of_mem_phase _ _ _ _ hMem'⟩, ?_⟩
        intro _
        exact ⟨_, by rw [run_trace, htr], hMem', layoutFetch_not_mem_phase _ _ _⟩

/-- C3 witness: in Scenario A the page fetch receives
`{ role: "admin" }` and happens strictly after the layout fetch. -/
theorem page_fetch_after_layout_with_locals_witness :
    (∃ p, layoutOutcome scenarioAInput = Except.ok (GSSPResult.props p) ∧
      JVal.obj [("role", JVal.str "admin")] = declaredLocals p) ∧
    (scenarioAInput.layoutFetch.isSome = true →
      ∃ tl, (run scenarioAInput).2 = Event.layoutFetch :: tl ∧
        Event.pageFetch (JVal.obj [("role", JVal.str "admin")]) ∈ tl ∧
        Event.layoutFetch ∉ tl) :=
  page_fetch_after_layout_with_locals scenarioAInput
    (JVal.obj [("role", JVal.str "admin")])
    (by
      show Event.pageFetch (JVal.obj [("role", JVal.str "admin")]) ∈
        [Event.layoutFetch, Event.pageFetch (JVal.obj [("role", JVal.str "admin")])]
      simp)

/-- C4: every error — layout fetch rejection, hash throw, page fetch
rejection (cached or not), serializer throw — is caught once at the
orchestrator boundary: the output is the exception handler's result when
one was supplied (`applyHandler (some h) e = h e`), and the very same
error otherwise (`applyHandler none e = Except.error e`). -/
theorem exceptions_caught_once_at_boundary (input : OrchestratorInput) :
    (∀ h e, applyHandler (some h) e = h e) ∧
    (∀ e, applyHandler none e = Except.error e) ∧
    (∀ e, input.layoutFetch = some (Except.error e) →
      (run input).1 = applyHandler input.exceptionHandler e) ∧
    (∀ p c e, layoutOutcome input = Except.ok (GSSPResult.props p) →
      input.caching = some c → c.hash (declaredLocals p) = Except.error e →
      (run input).1 = applyHandler input.exceptionHandler e) ∧
    (∀ p e, layoutOutcome input = Except.ok (GSSPResult.props p) →
      input.caching = none →
      input.passthrough (declaredLocals p) = Except.error e →
      (run input).1 = applyHandler input.exceptionHandler e) ∧
    (∀ p c key e, layoutOutcome input = Except.ok (GSSPResult.props p) →
      input.caching = some c → c.hash (declaredLocals p) = Except.ok key →
      c.getOutcome key = Except.ok none →
      input.passthrough (declaredLocals p) = Except.error e →
      (run input).1 = applyHandler input.exceptionHandler e) ∧
    (∀ p sp e, layoutOutcome input = Except.ok (GSSPResult.props p) →
      input.caching = none →
      input.passthrough (declaredLocals p) = Except.ok (GSSPResult.props sp) →
      serializeStep input.serializer (composedProps sp (declaredLayout p))
        = Except.error e →
      (run input).1 = applyHandler input.exceptionHandler e) := by
  refine ⟨fun h e => rfl, fun e => rfl, ?_, ?_, ?_, ?_, ?_⟩
  · intro e hLF
    simp [run, tryBody, layoutOutcome, hLF]
  · intro p c e hOut hc hh
    simp [run, tryBody, hOut, hc, pageFetchPhase, hh]
  · intro p e hOut hc hp
    simp [run, tryBody, hOut, hc, pageFetchPhase, hp]
  · intro p c key e hOut hc hh hg hp
    simp [run, tryBody, hOut, hc, pageFetchPhase, hh, hg, hp]
  · intro p sp e hOut hc hp hs
    simp [run, tryBody, hOut, hc, pageFetchPhase, hp, hs]

/-- C4 witness: a layout fetch rejecting with `"boom"` under a handler
that renders the error — the output is the handler's result. -/
theorem exceptions_caught_once_at_boundary_witness :
    (run throwingLayoutInput).1 = Except.ok (GSSPResult.props (JVal.str "boom")) :=
  (exceptions_caught_once_at_boundary throwingLayoutInput).2.2.1 (JVal.str "boom") rfl

/-- C5: cache failures are fail-open.  A rejecting `get` makes the request
behave exactly as a cache miss (same output, same trace — in particular
the page fetch runs), and the settled outcome of the discarded `set`
promise never changes the returned value. -/
theorem cache_failures_never_surface (input : OrchestratorInput) :
    (∀ c p key e, input.caching = some c →
      layoutOutcome input = Except.ok (GSSPResult.props p) →
      c.hash (declaredLocals p) = Except.ok key →
      c.getOutcome key = Except.error e →
      run input = run (withCaching input (some (withGetMiss c))) ∧
      Event.pageFetch (declaredLocals p) ∈ (run input).2) ∧
    (∀ c f, input.caching = some c →
      (run (withCaching input (some (withSetOutcome c f)))).1
        = (run input).1) := by
  constructor
  · intro c p key e hc hOut hh hg
    constructor
    · refine (run_caching_congr input _ p hOut ?_).symm
      rw [hc]
      simp [withGetMiss, pageFetchPhase, hh, hg]
    · rw [run_trace, tryBody_trace_of_props input p hOut, hc]
      cases hp : input.passthrough (declaredLocals p) <;>
        simp [pageFetchPhase, hh, hg, hp]
  · intro c f hc
    have hphase : ∀ l, pageFetchPhase (some (withSetOutcome c f))
        input.passthrough l = pageFetchPhase input.caching input.passthrough l := by
      intro l
      rw [hc]
      rfl
    rw [run_caching_congr_all input _ hphase]

/-- C5 witness: with a cache whose `get` and `set` both reject, the
request completes with the page fetch's result and the page fetch ran. -/
theorem cache_failures_never_surface_witness :
    (run failingCacheInput
        = run (withCaching failingCacheInput (some (withGetMiss failingCaching))) ∧
      Event.pageFetch (declaredLocals (JVal.obj [])) ∈ (run failingCacheInput).2) :=
  (cache_failures_never_surface failingCacheInput).1 failingCaching (JVal.obj [])
    "key1" (JVal.str "cache down") rfl rfl rfl rfl

/-- C9: in `implementLayoutBackend` the object crossing serialization has
exactly the three fields `serverSideProps`, `internalProps`, `transform`;
`transform` is `{}` without an `executeTransform` capability, and
otherwise the awaited result of `executeTransform` applied to the
composed object whose `transform` field is still `{}`; serialization
applies to the three-field object. -/
theorem backend_composed_has_transform_field (input : BackendInput) (p sp : JVal)
    (hLayout : input.layoutFetch = some (Except.ok (GSSPResult.props p)))
    (hCaching : input.caching = none)
    (hPage : input.passthrough (declaredLocals p) = Except.ok (GSSPResult.props sp)) :
    (input.executeTransform = none →
      ∀ outcome, serializeStep input.serialize
          (composedProps3 sp (declaredLayout p) (JVal.obj [])) = Except.ok outcome →
        (runBackend input).1 = Except.ok outcome) ∧
    (∀ f transform, input.executeTransform = some f →
      f (composedProps3 sp (declaredLayout p) (JVal.obj [])) = Except.ok transform →
      ∀ outcome, serializeStep input.serialize
          (composedProps3 sp (declaredLayout p) transform) = Except.ok outcome →
        (runBackend input).1 = Except.ok outcome) := by
  constructor
  · intro hT outcome hSer
    simp [runBackend, tryBodyBackend, layoutOutcomeB, hLayout, hCaching, pageFetchPhase,
      hPage, hT, hSer]
  · intro f transform hT hf outcome hSer
    have hset : JVal.obj (mapSet
        (toFields (composedProps3 sp (declaredLayout p) (JVal.obj [])))
        "transform" transform) = composedProps3 sp (declaredLayout p) transform := by
      simp [composedProps3, toFields, mapSet, mapContains, mapGet]
    simp [runBackend, tryBodyBackend, layoutOutcomeB, hLayout, hCaching, pageFetchPhase,
      hPage, hT, hf, hset, hSer]

/-- C9 witness: with `executeTransform` returning the `internalProps`
field of the three-field object it receives, the output carries
`transform: { user: 7 }`. -/
theorem backend_composed_has_transform_field_witness :
    (runBackend backendTransformInput).1 = Except.ok (GSSPResult.props (JVal.obj
      [("serverSideProps", JVal.obj [("items", JVal.num 3)]),
       ("internalProps", JVal.obj [("user", JVal.num 7)]),
       ("transform", JVal.obj [("user", JVal.num 7)])])) :=
  (backend_composed_has_transform_field backendTransformInput
      (JVal.obj [("layout", JVal.obj [("user", JVal.num 7)]), ("locals", JVal.obj [])])
      (JVal.obj [("items", JVal.num 3)]) rfl rfl rfl).2
    (fun props => Except.ok (jgetD props "internalProps"))
    (JVal.obj [("user", JVal.num 7)]) rfl rfl
    (GSSPResult.props (JVal.obj
      [("serverSideProps", JVal.obj [("items", JVal.num 3)]),
       ("internalProps", JVal.obj [("user", JVal.num 7)]),
       ("transform", JVal.obj [("user", JVal.num 7)])])) rfl

/-- C8: on the render path the page's render-prop function receives the
spread merge `{ ...serverSideProps, ...exportedInternalProps }`:
`serverSideProps` first, the exported projection second, so on a key
collision the page observes the exported value; and the exported props
are `{}` when no projection function was declared. -/
theorem render_merge_exported_wins (input : RenderInput) (receivedProps : JVal) :
    ∀ props exported,
      props = (match input.deserialize with
        | some d => d receivedProps
        | none => receivedProps) →
      exported = (match input.generateExportedInternalProps with
        | some g => g (jgetD props "internalProps")
        | none => JVal.obj []) →
      (defaultExport input receivedProps =
        input.layoutComponent (JVal.obj
          [("internalProps", jgetD props "internalProps"),
           ("layoutProps",
             input.page (jspread (jgetD props "serverSideProps") exported))])) ∧
      (∀ k vs ve, jget (jgetD props "serverSideProps") k = some vs →
        jget exported k = some ve →
        jget (jspread (jgetD props "serverSideProps") exported) k = some ve) ∧
      (input.generateExportedInternalProps = none → exported = JVal.obj []) := by
  intro props exported hprops hexp
  refine ⟨?_, ?_, ?_⟩
  · subst hprops
    subst hexp
    rfl
  · intro k vs ve hs he
    exact jget_jspread_right _ _ _ _ he
  · intro hnone
    rw [hexp, hnone]

/-- C8 witness: with server-side props `{ x: 1, z: 9 }` and exported
props `{ x: 2, extra: { u: 5 } }`, the merged object's `x` is the
exported value `2`. -/
theorem render_merge_exported_wins_witness :
    jget (jspread (jgetD collidingReceivedProps "serverSideProps")
        (JVal.obj [("x", JVal.num 2), ("extra", JVal.obj [("u", JVal.num 5)])])) "x"
      = some (JVal.num 2) ∧
    defaultExport collidingRenderInput collidingReceivedProps =
      collidingRenderInput.layoutComponent (JVal.obj
        [("internalProps", jgetD collidingReceivedProps "internalProps"),
         ("layoutProps", collidingRenderInput.page
           (jspread (jgetD collidingReceivedProps "serverSideProps")
             (JVal.obj [("x", JVal.num 2),
               ("extra", JVal.obj [("u", JVal.num 5)])])))]) := by
  have h := render_merge_exported_wins collidingRenderInput collidingReceivedProps
    collidingReceivedProps
    (JVal.obj [("x", JVal.num 2), ("extra", JVal.obj [("u", JVal.num 5)])])
    rfl rfl
  exact ⟨h.2.1 "x" (JVal.num 1) (JVal.num 2) rfl rfl, h.1⟩

/-- C6: first, inserting `max + 1` distinct keys into an empty cache of
capacity `max ≥ 1` with no intervening reads leaves exactly the insertions
minus the first — the first-inserted key and no other is evicted; second,
a `get` on the oldest key immediately before an insert that would
otherwise evict it makes the second-oldest key be evicted instead, and
the read key survives. -/
theorem lru_eviction_order {K V : Type} [DecidableEq K] (max : Nat) (hmax : 1 ≤ max) :
    (∀ (ks : List (K × V)) (tms : Nat), (ks.map Prod.fst).Nodup →
      ks.length = max + 1 →
      (ks.foldl (fun s kv => lruSet max s kv.1 kv.2 tms) (emptyLRU K V)).cache
        = ks.tail) ∧
    (∀ (s : LRUState K V) (a : K) (va : V) (b : K) (vb : V) (rest : List (K × V))
        (knew : K) (vn : V) (tms : Nat),
      s.cache = (a, va) :: (b, vb) :: rest →
      (s.cache.map Prod.fst).Nodup →
      s.cache.length = max →
      knew ∉ s.cache.map Prod.fst →
      (lruSet max (lruGet s a).2 knew vn tms).cache = rest ++ [(a, va), (knew, vn)] ∧
      mapGet (lruSet max (lruGet s a).2 knew vn tms).cache a = some va ∧
      mapGet (lruSet max (lruGet s a).2 knew vn tms).cache b = none) := by
  constructor
  · intro ks tms hnd hlen
    obtain ⟨front, lastp, rfl⟩ := exists_concat_of_length_pos ks (by omega)
    obtain ⟨lk, lv⟩ := lastp
    rw [keys_snoc] at hnd
    rw [List.length_append, List.length_singleton] at hlen
    have hfnd : (front.map Prod.fst).Nodup := (List.nodup_append.1 hnd).1
    have hlk : lk ∉ front.map Prod.fst := fun hmem =>
      (List.nodup_append.1 hnd).2.2 hmem (by simp)
    have hflen : front.length = max := by omega
    rw [List.foldl_append, List.foldl_cons, List.foldl_nil]
    have hfill := lruSet_foldl_fill max tms front (emptyLRU K V)
      (by simpa [emptyLRU] using hfnd) (by simp [emptyLRU, hflen])
    rw [show (emptyLRU K V).cache = [] from rfl, List.nil_append] at hfill
    cases front with
    | nil =>
      simp at hflen
      omega
    | cons f0 frest =>
      obtain ⟨f0k, f0v⟩ := f0
      rw [lruSet_cache_fresh_full max _ lk lv tms (by rw [hfill]; exact hfnd)
        (by rw [hfill]; exact hlk) f0k f0v frest hfill (by rw [hfill]; exact hflen)]
      simp
  · intro s a va b vb rest knew vn tms hcache hnd hlen hfresh
    rw [hcache] at hnd hfresh hlen
    simp only [List.map_cons, List.nodup_cons, List.mem_cons, not_or] at hnd
    obtain ⟨⟨hab, haR⟩, hbR, hRnd⟩ := hnd
    simp only [List.map_cons, List.mem_cons] at hfresh
    push_neg at hfresh
    obtain ⟨hka, hkb, hkR⟩ := hfresh
    simp only [List.length_cons] at hlen
    have hanotin : a ∉ ((b, vb) :: rest).map Prod.fst := by
      simp only [List.map_cons, List.mem_cons]
      push_neg
      exact ⟨hab, haR⟩
    have hga : mapGet s.cache a = some va := by
      rw [hcache]
      exact mapGet_cons_self _ _ _
    have hs2 : ((lruGet s a).2).cache = (b, vb) :: (rest ++ [(a, va)]) := by
      simp only [lruGet, hga]
      show mapSet (mapDelete s.cache a) a va = _
      have hdel : mapDelete s.cache a = (b, vb) :: rest := by
        rw [hcache]
        exact mapDelete_cons_self _ _ _ hanotin
      rw [hdel, mapSet_of_not_contains _ _ _ ((mapContains_eq_false_iff _ _).2 hanotin)]
      rfl
    have hnd2 : (((lruGet s a).2).cache.map Prod.fst).Nodup := by
      rw [hs2]
      simp only [List.map_cons, keys_snoc, List.nodup_cons]
      constructor
      · intro hmem
        rcases List.mem_append.1 hmem with h1 | h1
        · exact hbR h1
        · rw [List.mem_singleton] at h1
          exact hab h1.symm
      · exact nodup_snoc _ _ hRnd haR
    have hfresh2 : knew ∉ ((lruGet s a).2).cache.map Prod.fst := by
      rw [hs2]
      simp only [List.map_cons, keys_snoc]
      intro hmem
      rcases List.mem_cons.1 hmem with h1 | h1
      · exact hkb h1
      · rcases List.mem_append.1 h1 with h2 | h2
        · exact hkR h2
        · rw [List.mem_singleton] at h2
          exact hka h2
    have hlen2 : ((lruGet s a).2).cache.length = max := by
      rw [hs2]
      simp only [List.length_cons, List.length_append, List.length_singleton,
        List.length_nil]
      omega
    have hfinal := lruSet_cache_fresh_full max ((lruGet s a).2) knew vn tms hnd2 hfresh2
      b vb (rest ++ [(a, va)]) hs2 hlen2
    have hfinal2 : (lruSet max (lruGet s a).2 knew vn tms).cache
        = rest ++ [(a, va), (knew, vn)] := by
      rw [hfinal, List.append_assoc]
      rfl
    refine ⟨hfinal2, ?_, ?_⟩
    · rw [hfinal2, mapGet_append, (mapGet_eq_none_iff rest a).2 haR]
      exact mapGet_cons_self a va [(knew, vn)]
    · rw [hfinal2, mapGet_eq_none_iff]
      simp only [List.map_append, List.map_cons, List.map_nil]
      intro hmem
      rcases List.mem_append.1 hmem with h1 | h1
      · exact hbR h1
      · rcases List.mem_cons.1 h1 with h2 | h2
        · exact hab h2.symm
        · rcases List.mem_cons.1 h2 with h3 | h3
          · exact hkb h3.symm
          · simp at h3

/-- C6 witness: with capacity 2, inserting `a`, `b`, `c` leaves
`{b, c}` (the first key `a` evicted); reading `a` before inserting `c`
into the full `{a, b}` cache evicts `b` and keeps `a`. -/
theorem lru_eviction_order_witness :
    ((([("a", 1), ("b", 2), ("c", 3)] : List (String × Nat)).foldl
        (fun s kv => lruSet 2 s kv.1 kv.2 50) (emptyLRU String Nat)).cache
      = [("b", 2), ("c", 3)]) ∧
    ((lruSet 2 (lruGet twoEntryState "a").2 "c" 3 50).cache = [("a", 1), ("c", 3)] ∧
      mapGet (lruSet 2 (lruGet twoEntryState "a").2 "c" 3 50).cache "a" = some 1 ∧
      mapGet (lruSet 2 (lruGet twoEntryState "a").2 "c" 3 50).cache "b" = none) := by
  have h := lru_eviction_order (K := String) (V := Nat) 2 (by decide)
  exact ⟨h.1 [("a", 1), ("b", 2), ("c", 3)] 50 (by decide) rfl,
    h.2 twoEntryState "a" 1 "b" 2 [] "c" 3 50 rfl (by decide) rfl (by decide)⟩

/-- C7: every `set` schedules a fresh timer of the configured
`timeoutInMs` whose firing removes the entry; re-`set`ing an existing key
first cancels the key's previous timer — that timer can no longer fire,
so it never removes the value stored by the later `set`; and `delete`
cancels the pending timer before removing the entry. -/
theorem lru_timer_discipline {K V : Type} [DecidableEq K] (max : Nat)
    (s : LRUState K V) (k : K) (v : V) (tms : Nat) (hwf : lruWF s) :
    (∃ tid, mapGet (lruSet max s k v tms).timeoutMap k = some tid ∧
      (tid, k, tms) ∈ (lruSet max s k v tms).scheduled ∧
      mapGet (fireTimer (lruSet max s k v tms) tid).cache k = none) ∧
    (∀ oldTid, mapGet s.timeoutMap k = some oldTid →
      (∀ t ∈ (lruSet max s k v tms).scheduled, t.1 ≠ oldTid) ∧
      fireTimer (lruSet max s k v tms) oldTid = lruSet max s k v tms) ∧
    (∀ k2 tid, mapGet s.timeoutMap k2 = some tid →
      fireTimer (lruDelete s k2) tid = lruDelete s k2) := by
  obtain ⟨hndC, hndT, hndS, hidS, hidT, hTC⟩ := hwf
  have hNext := lruEvictTarget_nextId max s k
  have hSub := lruEvictTarget_scheduled_mem max s k
  refine ⟨?_, ?_, ?_⟩
  · refine ⟨s.nextId, ?_, ?_, ?_⟩
    · rw [lruSet_timeoutMap_eq, hNext]
      exact mapGet_mapSet_self _ _ _
    · rw [lruSet_scheduled_eq, hNext]
      exact List.mem_append_right _ (by simp)
    · have hpre : ∀ t ∈ (lruEvictTarget max s k).scheduled,
          (fun (u : Nat × K × Nat) => decide (u.1 = s.nextId)) t = false := by
        intro t ht
        have hlt := hidS t (hSub t ht)
        simp only [decide_eq_false_iff_not]
        omega
      have hfind : (lruSet max s k v tms).scheduled.find?
          (fun u => u.1 = s.nextId) = some (s.nextId, k, tms) := by
        rw [lruSet_scheduled_eq, hNext, find?_append_left_none _ _ _ hpre]
        simp
      rw [fireTimer_of_find _ _ _ hfind]
      exact mapGet_mapDelete_self _ _
  · intro oldTid hOld
    have hOldMem : (k, oldTid) ∈ s.timeoutMap := mapGet_mem _ _ _ hOld
    have hOldLt : oldTid < s.nextId := hidT (k, oldTid) hOldMem
    have hContains : mapContains s.cache k = true := hTC (k, oldTid) hOldMem
    have hTsched : (lruEvictTarget max s k).scheduled
        = s.scheduled.filter (fun t => t.1 ≠ oldTid) := by
      rw [lruEvictTarget_of_contains max s k hContains]
      simp only [lruDelete, hOld]
    constructor
    · intro t ht
      rw [lruSet_scheduled_eq, hTsched, hNext] at ht
      rcases List.mem_append.1 ht with h1 | h1
      · have h2 := (List.mem_filter.1 h1).2
        simpa using h2
      · rw [List.mem_singleton] at h1
        rw [h1]
        show s.nextId ≠ oldTid
        omega
    · apply fireTimer_of_none
      rw [lruSet_scheduled_eq, hTsched, hNext]
      apply find?_none_of_all
      intro t ht
      rcases List.mem_append.1 ht with h1 | h1
      · have h2 := (List.mem_filter.1 h1).2
        simp only [decide_eq_true_eq] at h2
        simp only [decide_eq_false_iff_not]
        exact h2
      · rw [List.mem_singleton] at h1
        rw [h1]
        simp only [decide_eq_false_iff_not]
        show ¬ s.nextId = oldTid
        omega
  · intro k2 tid htid
    apply fireTimer_of_none
    have hds : (lruDelete s k2).scheduled
        = s.scheduled.filter (fun t => t.1 ≠ tid) := by
      simp only [lruDelete, htid]
    rw [hds]
    apply find?_none_of_all
    intro t ht
    have h2 := (List.mem_filter.1 ht).2
    simp only [decide_eq_true_eq] at h2
    simp only [decide_eq_false_iff_not]
    exact h2

/-- C7 witness: on the state reached by one `set "a"` (entry present,
timer 0 pending), a re-`set` of `"a"` cancels timer 0: no scheduled timer
carries id 0 any more, and firing timer 0 afterwards changes nothing. -/
theorem lru_timer_discipline_witness :
    lruWF oneEntryState ∧
    ((∀ t ∈ (lruSet 10 oneEntryState "a" 5 200).scheduled, t.1 ≠ 0) ∧
      fireTimer (lruSet 10 oneEntryState "a" 5 200) 0
        = lruSet 10 oneEntryState "a" 5 200) := by
  have hwf : lruWF oneEntryState :=
    ⟨by decide, by decide, by decide, by decide, by decide, by decide⟩
  exact ⟨hwf, (lru_timer_discipline 10 oneEntryState "a" 5 200 hwf).2.1 0 rfl⟩

/-- C10: from the empty cache, no sequence of `get`/`set`/`delete`
operations ever brings the number of stored entries above the capacity
`max`, provided `max ≥ 1`. -/
theorem lru_size_never_exceeds_capacity {K V : Type} [DecidableEq K] (max : Nat)
    (hmax : 1 ≤ max) (ops : List (LRUOp K V)) :
    (runOps max ops).cache.length ≤ max := by
  have main : ∀ (l : List (LRUOp K V)) (s : LRUState K V), goodCache max s →
      goodCache max (l.foldl (applyOp max) s) := by
    intro l
    induction l with
    | nil => exact fun s hs => hs
    | cons op rest ih =>
      intro s hs
      rw [List.foldl_cons]
      refine ih _ ?_
      cases op with
      | get k => exact lruGet_preserves_goodCache max s k hs
      | set k v t => exact lruSet_preserves_goodCache max hmax s k v t hs
      | del k => exact lruDelete_preserves_goodCache max s k hs
  exact (main ops (emptyLRU K V) ⟨by simp [emptyLRU], by simp [emptyLRU]⟩).2

/-- C10 witness: capacity 2, five operations including three inserts —
the cache holds at most 2 entries. -/
theorem lru_size_never_exceeds_capacity_witness :
    (runOps 2 ([LRUOp.set "a" 1 10, LRUOp.set "b" 2 10, LRUOp.set "c" 3 10,
      LRUOp.get "a", LRUOp.del "b"] : List (LRUOp String Nat))).cache.length ≤ 2 :=
  lru_size_never_exceeds_capacity 2 (by decide) _

end Claims

end Layout
